import Mathlib

/-!
Shallow embedding of the sidestacker repository (Rust) for checking its
natural-language specification.

Sources embedded:
- `src/client/src/game/mod.rs`: `Slot`, `Side`, `Direction`, `Row`
  (`Row::len`, `Row::is_full`, `Row::get`).
- `src/client/src/game/board.rs`: `Board` (`new`, `try_get_row`,
  `insert_from_left`, `insert_from_right`, `is_game_over`, `recurse`).
- `src/src/board.rs` (abandoned prototype crate at the repository root;
  its `is_game_over` has an empty body and does not compile): `Row::is_full`,
  embedded as `RowProto.is_full`.
- `src/server/src/lib.rs`: `Player`, `Move`, `Turn`, `Response`, `Shared`
  (`broadcast`, `back_to_sender`), `Peer::new`, and the two branches of the
  `process` message loop.

Rust mutation is modelled by explicit state passing: a method that mutates
`self` becomes a function returning the new value (paired with the original
return value).  A Rust `panic!` / `.unwrap()` on `None` is modelled by an
`Option` result where `none` is the panic.  `usize` is modelled as `Nat`;
the only overflow in the embedded code is `row_num.overflowing_sub(1)` in
`Board::recurse`, whose wrapped value `usize::MAX` is always an
out-of-bounds row index, and it is modelled accordingly.
-/

/-- `Slot` from `src/client/src/game/mod.rs`: `Blank`, `X`, `O`. -/
inductive Slot where
  | Blank
  | X
  | O
deriving DecidableEq, Repr

/-- `Side` from `src/client/src/game/mod.rs`. -/
inductive Side where
  | Left
  | Right
deriving DecidableEq, Repr

/-- `Direction` from `src/client/src/game/mod.rs`: the eight directions of
the win scan. -/
inductive Direction where
  | North
  | NorthWest
  | NorthEast
  | South
  | SouthWest
  | SouthEast
  | East
  | West
deriving DecidableEq, Repr

/-- `GameError` variants used by the embedded board code
(`src/client/src/error.rs`). -/
inductive GameError where
  | NonexistentRow
  | FullRow
deriving DecidableEq, Repr

/-- `Row` from `src/client/src/game/mod.rs`: a newtype over a vector of
slots. -/
structure Row where
  slots : List Slot
deriving DecidableEq, Repr

namespace Row

/-- `Row::len` (`src/client/src/game/mod.rs`). -/
def len (r : Row) : Nat :=
  r.slots.length

/-- `Row::is_full` (`src/client/src/game/mod.rs`):
`self.0.iter().all(|slot| *slot != Slot::Blank)`. -/
def is_full (r : Row) : Bool :=
  r.slots.all (fun slot => slot != Slot.Blank)

/-- `Row::get` (`src/client/src/game/mod.rs`): `&self.0[col]`.  The source
indexes the vector directly and panics when `col` is out of bounds; every
call site embedded below only reaches it with `col` in bounds, and the
default value stands for the unreachable out-of-bounds case. -/
def get (r : Row) (col : Nat) : Slot :=
  r.slots.getD col Slot.Blank

end Row

/-- `Row::is_full` from the abandoned prototype crate `src/src/board.rs`:
`self.0.iter().any(|slot| if let Slot::Blank = slot { false } else { true })`. -/
def RowProto.is_full (r : Row) : Bool :=
  r.slots.any (fun slot => if slot = Slot.Blank then false else true)

/-- `Board` from `src/client/src/game/board.rs`. -/
structure Board where
  rows : List Row
  height : Nat
  width : Nat
deriving DecidableEq, Repr

namespace Board

/-- `Board::new` (`src/client/src/game/board.rs`): every slot `Blank`. -/
def new (height width : Nat) : Board :=
  { rows :=
      (List.range height).map
        (fun _ => Row.mk ((List.range width).map (fun _ => Slot.Blank)))
    height := height
    width := width }

/-- `Board::try_get_row` (`src/client/src/game/board.rs`). -/
def try_get_row (b : Board) (row_index : Nat) : Except GameError Row :=
  match b.rows.get? row_index with
  | some row => Except.ok row
  | none => Except.error GameError.NonexistentRow

/-- Helper for the insertion loops of `insert_from_left` /
`insert_from_right`: scan a slot list, overwrite the first `Blank` with
`slot`, and return its index together with the updated list; `none` when the
list holds no `Blank`. -/
def replaceFirstBlank : List Slot → Slot → Option (Nat × List Slot)
  | [], _ => none
  | s :: rest, slot =>
    match s with
    | Slot.Blank => some (0, slot :: rest)
    | _ =>
      (replaceFirstBlank rest slot).map (fun p => (p.1 + 1, s :: p.2))

/-- Replace row `row_num` of the board (the effect of mutating through
`try_get_row_mut`). -/
def setRow (b : Board) (row_num : Nat) (r : Row) : Board :=
  { b with rows := b.rows.set row_num r }

/-- `Board::insert_from_left` (`src/client/src/game/board.rs`).  The source
iterates `row.0.iter_mut().rev().enumerate()` — i.e. it scans the REVERSED
row — writes `slot` over the first `Blank` it meets, and returns
`(row_num, row.len() - col - 1)` where `col` is the index in the reversed
scan.  Errors leave the board untouched, as in the source, so the result
pairs the `Result` with the (possibly updated) board. -/
def insert_from_left (b : Board) (row_num : Nat) (slot : Slot) :
    Except GameError (Nat × Nat) × Board :=
  match b.rows.get? row_num with
  | none => (Except.error GameError.NonexistentRow, b)
  | some row =>
    if row.is_full then (Except.error GameError.FullRow, b)
    else
      match replaceFirstBlank row.slots.reverse slot with
      | some (col, revSlots) =>
        (Except.ok (row_num, row.len - col - 1),
          b.setRow row_num (Row.mk revSlots.reverse))
      | none => (Except.error GameError.FullRow, b)

/-- `Board::insert_from_right` (`src/client/src/game/board.rs`).  The source
iterates `row.0.iter_mut().enumerate()` — the row in order from index 0 —
writes `slot` over the first `Blank`, and returns `(row_num, col)`. -/
def insert_from_right (b : Board) (row_num : Nat) (slot : Slot) :
    Except GameError (Nat × Nat) × Board :=
  match b.rows.get? row_num with
  | none => (Except.error GameError.NonexistentRow, b)
  | some row =>
    if row.is_full then (Except.error GameError.FullRow, b)
    else
      match replaceFirstBlank row.slots slot with
      | some (col, slots) =>
        (Except.ok (row_num, col), b.setRow row_num (Row.mk slots))
      | none => (Except.error GameError.FullRow, b)

/-- The slot stored at `(r, c)`, as an `Option`: `none` when the coordinate
is out of bounds. -/
def cell? (b : Board) (rc : Nat × Nat) : Option Slot :=
  (b.rows.get? rc.1).bind (fun row => row.slots.get? rc.2)

end Board


namespace Board

/-- `i < rows.length` whenever `try_get_row` succeeds. -/
theorem try_get_row_lt {b : Board} {i : Nat} {r : Row}
    (h : b.try_get_row i = Except.ok r) : i < b.rows.length := by
  unfold Board.try_get_row at h
  cases hg : b.rows.get? i with
  | none => rw [hg] at h; cases h
  | some row =>
    exact (List.get?_eq_some.mp hg).1

/-- Termination measure for `Board.recurse`: the direction is constant along
the recursion, and in each direction one coordinate moves monotonically
toward a bound. -/
def dirMeasure (b : Board) (row_num col : Nat) : Direction → Nat
  | Direction.North => row_num
  | Direction.NorthWest => row_num
  | Direction.NorthEast => row_num
  | Direction.South => b.rows.length - row_num
  | Direction.SouthWest => b.rows.length - row_num
  | Direction.SouthEast => b.rows.length - row_num
  | Direction.East => b.width - col
  | Direction.West => col

/-- `Board::recurse` (`src/client/src/game/board.rs`): directional walk
counting consecutive slots equal to `slot`, starting from `len_so_far`.
`row_num.overflowing_sub(1)` at `row_num = 0` wraps to `usize::MAX`, which
is out of bounds for every materializable vector, so `try_get_row` fails
there; the model returns `len_so_far` directly in that case.  In the East /
West arms the source calls `self.try_get_row(row_num).unwrap()`; the panic
on an out-of-bounds `row_num` is modelled by an empty default row (never
reached from `is_game_over`, whose origin is in bounds). -/
def recurse (b : Board) (slot : Slot) (row_num col : Nat) (len_so_far : Nat)
    (direction : Direction) : Nat :=
  if slot = Slot.Blank then len_so_far
  else
    match direction with
    | Direction.North =>
      if _h0 : row_num = 0 then len_so_far
      else
        match b.try_get_row (row_num - 1) with
        | Except.ok row =>
          if slot = row.get col then
            b.recurse slot (row_num - 1) col (len_so_far + 1) Direction.North
          else len_so_far
        | Except.error _ => len_so_far
    | Direction.South =>
      match hrow : b.try_get_row (row_num + 1) with
      | Except.ok row =>
        if slot = row.get col then
          b.recurse slot (row_num + 1) col (len_so_far + 1) Direction.South
        else len_so_far
      | Except.error _ => len_so_far
    | Direction.East =>
      let row := (b.try_get_row row_num).toOption.getD (Row.mk [])
      if _h1 : col < b.width - 1 then
        if slot = row.get (col + 1) then
          b.recurse slot row_num (col + 1) (len_so_far + 1) Direction.East
        else len_so_far
      else len_so_far
    | Direction.West =>
      let row := (b.try_get_row row_num).toOption.getD (Row.mk [])
      if _h1 : col > 0 then
        if slot = row.get (col - 1) then
          b.recurse slot row_num (col - 1) (len_so_far + 1) Direction.West
        else len_so_far
      else len_so_far
    | Direction.NorthEast =>
      if _h0 : row_num = 0 then len_so_far
      else
        match b.try_get_row (row_num - 1) with
        | Except.ok row =>
          if col < b.width - 1 then
            if slot = row.get (col + 1) then
              b.recurse slot (row_num - 1) (col + 1) (len_so_far + 1)
                Direction.NorthEast
            else len_so_far
          else len_so_far
        | Except.error _ => len_so_far
    | Direction.NorthWest =>
      if _h0 : row_num = 0 then len_so_far
      else
        match b.try_get_row (row_num - 1) with
        | Except.ok row =>
          if col > 0 then
            if slot = row.get (col - 1) then
              b.recurse slot (row_num - 1) (col - 1) (len_so_far + 1)
                Direction.NorthWest
            else len_so_far
          else len_so_far
        | Except.error _ => len_so_far
    | Direction.SouthEast =>
      match hrow : b.try_get_row (row_num + 1) with
      | Except.ok row =>
        if col < b.width - 1 then
          if slot = row.get (col + 1) then
            b.recurse slot (row_num + 1) (col + 1) (len_so_far + 1)
              Direction.SouthEast
          else len_so_far
        else len_so_far
      | Except.error _ => len_so_far
    | Direction.SouthWest =>
      match hrow : b.try_get_row (row_num + 1) with
      | Except.ok row =>
        if col > 0 then
          if slot = row.get (col - 1) then
            b.recurse slot (row_num + 1) (col - 1) (len_so_far + 1)
              Direction.SouthWest
          else len_so_far
        else len_so_far
      | Except.error _ => len_so_far
termination_by dirMeasure b row_num col direction
decreasing_by
  all_goals simp only [dirMeasure]
  all_goals first
    | omega
    | (have hlt := try_get_row_lt hrow; omega)

/-- `Board::is_game_over` (`src/client/src/game/board.rs`).  The source
panics on a `Blank` origin slot (`none` here); otherwise it returns
`Ok(Some(slot))` exactly when one of the four axis totals
(opposite-direction counts minus the doubly counted origin) EQUALS 4, and
`Ok(None)` otherwise. -/
def is_game_over (b : Board) (row_num col : Nat) (slot : Slot) :
    Option (Option Slot) :=
  if slot = Slot.Blank then none
  else
    let search_results : List Nat :=
      [ b.recurse slot row_num col 1 Direction.North
          + b.recurse slot row_num col 1 Direction.South - 1,
        b.recurse slot row_num col 1 Direction.East
          + b.recurse slot row_num col 1 Direction.West - 1,
        b.recurse slot row_num col 1 Direction.NorthEast
          + b.recurse slot row_num col 1 Direction.SouthWest - 1,
        b.recurse slot row_num col 1 Direction.NorthWest
          + b.recurse slot row_num col 1 Direction.SouthEast - 1 ]
    some (if search_results.any (fun result => result == 4) then some slot
      else none)

end Board


/-! ## Properties of the insertion scan -/

namespace Board

theorem replaceFirstBlank_spec :
    ∀ (l : List Slot) (s : Slot) (i : Nat) (l' : List Slot),
      replaceFirstBlank l s = some (i, l') →
      l.get? i = some Slot.Blank ∧ l' = l.set i s ∧
        ∀ k, k < i → l.get? k ≠ some Slot.Blank
  | [], s, i, l', h => by simp [replaceFirstBlank] at h
  | Slot.Blank :: rest, s, i, l', h => by
    simp [replaceFirstBlank] at h
    obtain ⟨hi, hl⟩ := h
    subst hi
    subst hl
    exact ⟨rfl, rfl, fun k hk => absurd hk (by omega)⟩
  | Slot.X :: rest, s, i, l', h => by
    simp [replaceFirstBlank, Option.map_eq_some'] at h
    obtain ⟨j, rest', hj, hi, hl⟩ := h
    obtain ⟨hget, hset, hmin⟩ := replaceFirstBlank_spec rest s j rest' hj
    subst hi
    subst hl
    refine ⟨by simpa using hget, by simp [hset], ?_⟩
    intro k hk
    match k with
    | 0 => simp
    | k + 1 =>
      have hk' : k < j := by omega
      simpa using hmin k hk'
  | Slot.O :: rest, s, i, l', h => by
    simp [replaceFirstBlank, Option.map_eq_some'] at h
    obtain ⟨j, rest', hj, hi, hl⟩ := h
    obtain ⟨hget, hset, hmin⟩ := replaceFirstBlank_spec rest s j rest' hj
    subst hi
    subst hl
    refine ⟨by simpa using hget, by simp [hset], ?_⟩
    intro k hk
    match k with
    | 0 => simp
    | k + 1 =>
      have hk' : k < j := by omega
      simpa using hmin k hk'

theorem replaceFirstBlank_eq_none_iff (l : List Slot) (s : Slot) :
    replaceFirstBlank l s = none ↔ ∀ x ∈ l, x ≠ Slot.Blank := by
  induction l with
  | nil => simp [replaceFirstBlank]
  | cons a rest ih =>
    cases a with
    | Blank => simp [replaceFirstBlank]
    | X => simp [replaceFirstBlank, Option.map_eq_none', ih]
    | O => simp [replaceFirstBlank, Option.map_eq_none', ih]

/-- Setting index `i` of the reversed list and reversing back is setting
index `length - 1 - i` of the original list. -/
theorem reverse_set_reverse (l : List Slot) (i : Nat) (s : Slot)
    (h : i < l.length) :
    (l.reverse.set i s).reverse = l.set (l.length - 1 - i) s := by
  apply List.ext_getElem?
  intro n
  by_cases hn : n < l.length
  · have hrev : (l.reverse.set i s).reverse[n]? = (l.reverse.set i s)[l.length - 1 - n]? := by
      rw [List.getElem?_reverse (by simp; omega)]
      congr 1
      simp
    rw [hrev, List.getElem?_set, List.getElem?_set]
    by_cases hin : i = l.length - 1 - n
    · have hni : l.length - 1 - i = n := by omega
      rw [if_pos hin, if_pos hni, if_pos (by simpa using h), if_pos (by omega)]
    · have hni : l.length - 1 - i ≠ n := by omega
      rw [if_neg hin, if_neg hni, List.getElem?_reverse (by omega)]
      congr 1
      omega
  · have h1 : (l.reverse.set i s).reverse[n]? = none := by
      apply List.getElem?_eq_none
      simp
      omega
    have h2 : (l.set (l.length - 1 - i) s)[n]? = none := by
      apply List.getElem?_eq_none
      simp
      omega
    rw [h1, h2]

/-- Success characterization of `insert_from_left`: the written cell is the
RIGHTMOST `Blank` of the target row, and the new board differs from the old
only in that cell. -/
theorem insert_from_left_ok {b : Board} {row_num : Nat} {slot : Slot}
    {rc : Nat × Nat} {b' : Board}
    (h : b.insert_from_left row_num slot = (Except.ok rc, b')) :
    ∃ row : Row, b.rows.get? row_num = some row ∧
      rc.1 = row_num ∧ rc.2 < row.len ∧
      row.slots.get? rc.2 = some Slot.Blank ∧
      (∀ k, rc.2 < k → row.slots.get? k ≠ some Slot.Blank) ∧
      b' = b.setRow row_num (Row.mk (row.slots.set rc.2 slot)) := by
  unfold insert_from_left at h
  split at h
  next hnone => exact Except.noConfusion (congrArg Prod.fst h)
  next row hrow =>
    split at h
    · exact Except.noConfusion (congrArg Prod.fst h)
    next hfull =>
      split at h
      next c revSlots hrep =>
        injection h with h1 h2
        injection h1 with h1
        subst h1
        subst h2
        obtain ⟨hget, hset, hmin⟩ :=
          replaceFirstBlank_spec row.slots.reverse slot c revSlots hrep
        have hc : c < row.slots.length := by
          have := (List.get?_eq_some.mp hget).1
          simpa using this
        refine ⟨row, hrow, rfl, ?_, ?_, ?_, ?_⟩
        · show row.len - c - 1 < row.len
          simp only [Row.len]
          omega
        · show row.slots.get? (row.len - c - 1) = some Slot.Blank
          have h1 : row.slots.reverse[c]? = row.slots[row.slots.length - 1 - c]? :=
            List.getElem?_reverse (by simpa using hc)
          rw [List.get?_eq_getElem?] at hget ⊢
          rw [h1] at hget
          have he : row.slots.length - 1 - c = row.len - c - 1 := by
            simp only [Row.len]
            omega
          rw [he] at hget
          exact hget
        · intro k hk
          replace hk : row.len - c - 1 < k := hk
          simp only [Row.len] at hk
          by_cases hklen : k < row.slots.length
          · have hK : row.slots.length - 1 - k < c := by omega
            have hm := hmin (row.slots.length - 1 - k) hK
            rw [List.get?_eq_getElem?] at hm ⊢
            rw [List.getElem?_reverse (by omega)] at hm
            have heq : row.slots.length - 1 - (row.slots.length - 1 - k) = k := by
              omega
            rw [heq] at hm
            exact hm
          · rw [List.get?_eq_getElem?, List.getElem?_eq_none (by omega)]
            simp
        · show b.setRow row_num (Row.mk revSlots.reverse) = _
          have hrr : revSlots.reverse = row.slots.set (row.slots.length - 1 - c) slot := by
            rw [hset]
            exact reverse_set_reverse row.slots c slot (by simpa using hc)
          have he : row.slots.length - 1 - c = row.len - c - 1 := by
            simp only [Row.len]
            omega
          rw [hrr, he]
      next hrep => exact Except.noConfusion (congrArg Prod.fst h)

/-- Success characterization of `insert_from_right`: the written cell is the
LEFTMOST `Blank` of the target row. -/
theorem insert_from_right_ok {b : Board} {row_num : Nat} {slot : Slot}
    {rc : Nat × Nat} {b' : Board}
    (h : b.insert_from_right row_num slot = (Except.ok rc, b')) :
    ∃ row : Row, b.rows.get? row_num = some row ∧
      rc.1 = row_num ∧ rc.2 < row.len ∧
      row.slots.get? rc.2 = some Slot.Blank ∧
      (∀ k, k < rc.2 → row.slots.get? k ≠ some Slot.Blank) ∧
      b' = b.setRow row_num (Row.mk (row.slots.set rc.2 slot)) := by
  unfold insert_from_right at h
  split at h
  next hnone => exact Except.noConfusion (congrArg Prod.fst h)
  next row hrow =>
    split at h
    · exact Except.noConfusion (congrArg Prod.fst h)
    next hfull =>
      split at h
      next c slots' hrep =>
        injection h with h1 h2
        injection h1 with h1
        subst h1
        subst h2
        obtain ⟨hget, hset, hmin⟩ :=
          replaceFirstBlank_spec row.slots slot c slots' hrep
        have hc : c < row.slots.length := (List.get?_eq_some.mp hget).1
        refine ⟨row, hrow, rfl, ?_, hget, hmin, ?_⟩
        · show c < row.len
          simpa [Row.len] using hc
        · show b.setRow row_num (Row.mk slots') = _
          rw [hset]
      next hrep => exact Except.noConfusion (congrArg Prod.fst h)

theorem insert_from_left_error {b : Board} {row_num : Nat} {slot : Slot}
    {e : GameError} {b' : Board}
    (h : b.insert_from_left row_num slot = (Except.error e, b')) : b' = b := by
  unfold insert_from_left at h
  split at h
  next hnone => exact (congrArg Prod.snd h).symm
  next row hrow =>
    split at h
    · exact (congrArg Prod.snd h).symm
    next hfull =>
      split at h
      next c revSlots hrep => exact Except.noConfusion (congrArg Prod.fst h)
      next hrep => exact (congrArg Prod.snd h).symm

theorem insert_from_right_error {b : Board} {row_num : Nat} {slot : Slot}
    {e : GameError} {b' : Board}
    (h : b.insert_from_right row_num slot = (Except.error e, b')) : b' = b := by
  unfold insert_from_right at h
  split at h
  next hnone => exact (congrArg Prod.snd h).symm
  next row hrow =>
    split at h
    · exact (congrArg Prod.snd h).symm
    next hfull =>
      split at h
      next c slots' hrep => exact Except.noConfusion (congrArg Prod.fst h)
      next hrep => exact (congrArg Prod.snd h).symm

end Board

/-! ## Server model (`src/server/src/lib.rs`)

The channels (`Tx`/`Rx`) carry `String` lines.  Every string a channel can
carry is either a serialized `Response` unit variant or the raw client line
relayed by `broadcast` in the submit branch (a bare JSON `Turn`); distinct
constructors of `ChannelMsg` stand for the distinct strings.  The
`HashMap<SocketAddr, Tx>` is modelled as an association list with one entry
per registered address, each entry carrying the FIFO list of messages sent
into that peer's channel so far.  The database handle is an external
collaborator and is not modelled. -/

/-- `Player` from `src/server/src/lib.rs`. -/
inductive Player where
  | First
  | Second
deriving DecidableEq, Repr

/-- `impl Not for Player` (`src/server/src/lib.rs`). -/
def Player.not : Player → Player
  | Player.First => Player.Second
  | Player.Second => Player.First

/-- `impl From<u32> for Player`: `1` becomes `First`, anything else
`Second`. -/
def Player.fromNum (n : Nat) : Player :=
  if n = 1 then Player.First else Player.Second

/-- `Move` from `src/server/src/lib.rs`. -/
structure Move where
  side : Side
  row : Nat
deriving DecidableEq, Repr

/-- `Turn` from `src/server/src/lib.rs`. -/
structure Turn where
  source : Player
  mov : Move
deriving DecidableEq, Repr

/-- Socket addresses, abstracted. -/
abbrev Addr := Nat

/-- One line sent into a peer's channel (see the section comment). -/
inductive ChannelMsg where
  /-- The submitter's raw request line (a bare JSON `Turn`), relayed by
  `broadcast` in the submit branch of `process`. -/
  | rawTurn (t : Turn)
  | gameStart
  | gameFull
  | notYourTurn
  | acknowledged
  | playerDisconnected
  | serverError
deriving DecidableEq, Repr

/-- `Shared` from `src/server/src/lib.rs` (without the database handle). -/
structure Shared where
  players : List (Addr × List ChannelMsg)
  current_player : Player
  turns : List Turn
  height : Nat
  width : Nat
deriving DecidableEq, Repr

namespace Shared

/-- `Shared::broadcast`: send `message` to every peer EXCEPT `sender`. -/
def broadcast (st : Shared) (sender : Addr) (message : ChannelMsg) : Shared :=
  { st with
    players := st.players.map
      (fun p => if p.1 ≠ sender then (p.1, p.2 ++ [message]) else p) }

/-- `Shared::back_to_sender`: `self.players.get_mut(&sender).unwrap()` —
the `unwrap` PANICS (modelled as `none`) whenever `sender` is not a key of
the peer map; otherwise `message` is sent into the sender's own channel. -/
def back_to_sender (st : Shared) (sender : Addr) (message : ChannelMsg) :
    Option Shared :=
  if st.players.any (fun p => p.1 == sender) then
    some { st with
      players := st.players.map
        (fun p => if p.1 = sender then (p.1, p.2 ++ [message]) else p) }
  else none

end Shared

/-- Outcome of `Peer::new` as it affects `Shared`. -/
inductive RegisterResult where
  /-- The peer was registered (`Welcome` goes to its socket directly). -/
  | registered (st : Shared) (p : Player)
  /-- The game-full branch completed (requires the rejected address to be
  a key of the peer map, which a fresh connection never is). -/
  | full (st : Shared)
  /-- The game-full branch panicked in `back_to_sender`'s `unwrap`. -/
  | panicked
deriving DecidableEq, Repr

/-- `Peer::new` (`src/server/src/lib.rs`): capacity check against
`players.len() + 1`, then either the `GameFull` rejection through
`back_to_sender`, or insertion of the new peer with an empty channel and
assignment of `Player::from(num_players)`. -/
def Peer.new (st : Shared) (addr : Addr) : RegisterResult :=
  let num_players := st.players.length + 1
  if num_players > 2 then
    match st.back_to_sender addr ChannelMsg.gameFull with
    | some st' => RegisterResult.full st'
    | none => RegisterResult.panicked
  else
    RegisterResult.registered
      { st with players := st.players ++ [(addr, [])] }
      (Player.fromNum num_players)

/-- The registration path of `process` (`src/server/src/lib.rs`): a
successful `Peer::new` is followed by
`state.broadcast(addr, Response::GameStart)` — every registered peer
EXCEPT the just-registered one; `process` returns early (no broadcast) when
`Peer::new` does not register the peer. -/
def processRegister (st : Shared) (addr : Addr) : Option Shared :=
  match Peer.new st addr with
  | RegisterResult.registered st1 _p =>
    some (st1.broadcast addr ChannelMsg.gameStart)
  | RegisterResult.full _ => none
  | RegisterResult.panicked => none

/-- The socket-inbound branch of the `process` loop
(`src/server/src/lib.rs`), once the line from the peer at `addr` has been
decoded as `turn`: if `turn.source == current_player`, push onto `turns`,
`broadcast` the raw line to the other peer, send `Acknowledged` back to the
sender, and flip `current_player`; otherwise only send `NotYourTurn` back to
the sender.  `none` is the panic of `back_to_sender`. -/
def submitStep (st : Shared) (addr : Addr) (turn : Turn) : Option Shared :=
  if turn.source = st.current_player then
    let st1 := { st with turns := st.turns ++ [turn] }
    let st2 := st1.broadcast addr (ChannelMsg.rawTurn turn)
    match st2.back_to_sender addr ChannelMsg.acknowledged with
    | some st3 => some { st3 with current_player := st3.current_player.not }
    | none => none
  else
    st.back_to_sender addr ChannelMsg.notYourTurn

/-- The relay branch of the `process` loop (`src/server/src/lib.rs`): a
message received on the peer's private channel is decoded as a `Turn` —
succeeding exactly for a relayed raw turn line — and pushed onto the shared
`turns` history a SECOND time before `Response::Turn` is written to this
peer's socket; any other channel message fails to decode and aborts the
loop (`none`). -/
def relayStep (st : Shared) (msg : ChannelMsg) : Option Shared :=
  match msg with
  | ChannelMsg.rawTurn turn => some { st with turns := st.turns ++ [turn] }
  | _ => none

/-- A shared state with two registered peers (addresses 0 and 1), empty
channels, no turns: the state right after both registrations. -/
def sharedTwo : Shared :=
  { players := [(0, []), (1, [])]
    current_player := Player.First
    turns := []
    height := 7
    width := 7 }


/-! ## Concrete fixtures -/

/-- A row of 7 `Blank` slots. -/
def blankRow7 : Row := Row.mk (List.replicate 7 Slot.Blank)

/-- A 7×7 board whose row 3 is `_XXXXX_`: the position right after `X` is
placed at (3,3), joining the two-runs at (3,1)–(3,2) and (3,4)–(3,5) into a
single run of five. -/
def bC1 : Board :=
  Board.mk
    [blankRow7, blankRow7, blankRow7,
     Row.mk [Slot.Blank, Slot.X, Slot.X, Slot.X, Slot.X, Slot.X, Slot.Blank],
     blankRow7, blankRow7, blankRow7] 7 7

/-- A 7×7 board whose row 3 is entirely `X`. -/
def bFullRow : Board :=
  Board.mk
    [blankRow7, blankRow7, blankRow7, Row.mk (List.replicate 7 Slot.X),
     blankRow7, blankRow7, blankRow7] 7 7

/-- Four repeated `insert_from_left` calls with `X` at row 3 of a fresh 7×7
board. -/
def fourLeft : Board :=
  (((((Board.new 7 7).insert_from_left 3 Slot.X).2.insert_from_left 3
      Slot.X).2.insert_from_left 3 Slot.X).2.insert_from_left 3 Slot.X).2

/-- The board after one `insert_from_left` with `X` at row 3 of a fresh 7×7
board. -/
def bAfterLeft : Board := ((Board.new 7 7).insert_from_left 3 Slot.X).2

/-- The board after one `insert_from_right` with `X` at row 3 of a fresh
7×7 board. -/
def bAfterRight : Board := ((Board.new 7 7).insert_from_right 3 Slot.X).2

/-- The shared state before any registration. -/
def shared0 : Shared :=
  { players := [], current_player := Player.First, turns := []
    height := 7, width := 7 }

/-- The shared state with one registered peer at address 0. -/
def sharedOne : Shared :=
  { players := [(0, [])], current_player := Player.First, turns := []
    height := 7, width := 7 }

/-- First player's turn: left insertion at row 3. -/
def turnLeft3 : Turn := Turn.mk Player.First (Move.mk Side.Left 3)

/-- An out-of-turn submission: `Second` while `current_player` is
`First`. -/
def turnWrong : Turn := Turn.mk Player.Second (Move.mk Side.Left 3)

namespace Board

/-- The directional walk of `recurse` is bounded by its termination
measure: each direction moves one coordinate monotonically toward the board
edge and the walk adds one per visited cell. -/
theorem recurse_le (b : Board) (slot : Slot) (row_num col len_so_far : Nat)
    (d : Direction) :
    b.recurse slot row_num col len_so_far d ≤
      len_so_far + b.dirMeasure row_num col d := by
  apply Board.recurse.induct b slot
    (fun row_num col len_so_far d =>
      b.recurse slot row_num col len_so_far d ≤
        len_so_far + b.dirMeasure row_num col d)
  all_goals intros
  all_goals rw [Board.recurse.eq_def]
  all_goals try (have hlt := Board.try_get_row_lt (by assumption))
  all_goals simp_all [Board.dirMeasure]
  all_goals try split
  all_goals try simp_all [Board.dirMeasure]
  all_goals try split
  all_goals try simp_all [Board.dirMeasure]
  all_goals omega

/-- `cell?` facts at the written coordinate of a successful insertion. -/
theorem cell_of_ok {b : Board} {row_num : Nat} {slot : Slot}
    {rc : Nat × Nat} {b' : Board} (row : Row)
    (hrow : b.rows.get? row_num = some row)
    (hrc1 : rc.1 = row_num) (hlt : rc.2 < row.len)
    (hblank : row.slots.get? rc.2 = some Slot.Blank)
    (hb' : b' = b.setRow row_num (Row.mk (row.slots.set rc.2 slot))) :
    Board.cell? b rc = some Slot.Blank ∧ Board.cell? b' rc = some slot := by
  have hrn : row_num < b.rows.length := (List.get?_eq_some.mp hrow).1
  constructor
  · unfold Board.cell?
    rw [hrc1, hrow]
    simpa using hblank
  · subst hb'
    unfold Board.cell? Board.setRow
    simp only
    rw [hrc1, List.get?_eq_getElem?, List.getElem?_set_self hrn]
    simp only [Option.some_bind]
    rw [List.get?_eq_getElem?, List.getElem?_set_self (by simpa [Row.len] using hlt)]

/-- Every cell other than the written one is untouched by a successful
insertion. -/
theorem cell_frame {b : Board} {row_num : Nat} {slot : Slot}
    {rc : Nat × Nat} {b' : Board} (row : Row)
    (hrow : b.rows.get? row_num = some row)
    (hrc1 : rc.1 = row_num)
    (hb' : b' = b.setRow row_num (Row.mk (row.slots.set rc.2 slot))) :
    ∀ i j, ¬(i = rc.1 ∧ j = rc.2) →
      Board.cell? b' (i, j) = Board.cell? b (i, j) := by
  intro i j hij
  subst hb'
  show (((b.rows.set row_num (Row.mk (row.slots.set rc.2 slot))).get? i).bind
      (fun r => r.slots.get? j)) = (b.rows.get? i).bind (fun r => r.slots.get? j)
  by_cases hi : i = row_num
  · subst hi
    have hrn : i < b.rows.length := (List.get?_eq_some.mp hrow).1
    have hj : j ≠ rc.2 := by
      intro hj
      exact hij ⟨hrc1.symm, hj⟩
    rw [List.get?_eq_getElem?, List.getElem?_set_self hrn, hrow]
    simp only [Option.some_bind]
    rw [List.get?_eq_getElem?, List.getElem?_set_ne (fun h => hj h.symm),
      List.get?_eq_getElem?]
  · rw [List.get?_eq_getElem?, List.getElem?_set_ne (fun h => hi h.symm),
      List.get?_eq_getElem?]

end Board

/-! ## Claims -/

/-- C1.  The claim states that `is_game_over` reports a win whenever some
axis total is ≥ 4, and in particular that a run of length 5 is reported.
The code tests `result == 4` exactly: on the board `bC1`, obtained by
placing `X` at (3,3) between two two-runs, the horizontal axis total is 5,
yet `is_game_over` reports no win (`Ok(None)`, i.e. `some none`). -/
theorem is_game_over_misses_five_in_a_row :
    Board.is_game_over bC1 3 3 Slot.X = some none ∧
    Board.recurse bC1 Slot.X 3 3 1 Direction.East
      + Board.recurse bC1 Slot.X 3 3 1 Direction.West - 1 = 5 := by
  constructor
  · simp [Board.is_game_over, Board.recurse, Board.try_get_row, Row.get, bC1,
      blankRow7]
    decide
  · simp [Board.recurse, Board.try_get_row, Row.get, bC1, blankRow7]
    decide

/-- C2 counterexample.  The claim states that `insert_from_left` scans from
column 0 upward, so that four repeated left-insertions into empty row 3
occupy (3,0)…(3,3) and the first one lands at (3,0).  In fact the first
left-insertion on a fresh 7×7 board returns (3,6), and after four of them
cell (3,0) is still `Blank` while (3,6) holds the piece. -/
theorem four_left_insertions_do_not_fill_left_edge :
    ((Board.new 7 7).insert_from_left 3 Slot.X).1 = Except.ok (3, 6) ∧
    Board.cell? fourLeft (3, 0) = some Slot.Blank ∧
    Board.cell? fourLeft (3, 6) = some Slot.X :=
  ⟨rfl, rfl, rfl⟩

/-- C2 amended.  `insert_from_left` scans the target row from the LAST
column downward — it writes the rightmost `Blank` (every cell to its right
is occupied) — and `insert_from_right` scans from column 0 upward, writing
the leftmost `Blank`; consequently four repeated left-insertions by `X`
into empty row 3 of a 7×7 board occupy exactly (3,6), (3,5), (3,4), (3,3),
leaving (3,0)–(3,2) blank. -/
theorem insert_scans_from_far_edge :
    (∀ (b : Board) (row_num : Nat) (slot : Slot) (rc : Nat × Nat) (b' : Board),
      b.insert_from_left row_num slot = (Except.ok rc, b') →
        rc.1 = row_num ∧ Board.cell? b rc = some Slot.Blank ∧
        ∀ k, rc.2 < k → Board.cell? b (row_num, k) ≠ some Slot.Blank) ∧
    (∀ (b : Board) (row_num : Nat) (slot : Slot) (rc : Nat × Nat) (b' : Board),
      b.insert_from_right row_num slot = (Except.ok rc, b') →
        rc.1 = row_num ∧ Board.cell? b rc = some Slot.Blank ∧
        ∀ k, k < rc.2 → Board.cell? b (row_num, k) ≠ some Slot.Blank) ∧
    (Board.cell? fourLeft (3, 3) = some Slot.X ∧
     Board.cell? fourLeft (3, 4) = some Slot.X ∧
     Board.cell? fourLeft (3, 5) = some Slot.X ∧
     Board.cell? fourLeft (3, 6) = some Slot.X ∧
     Board.cell? fourLeft (3, 0) = some Slot.Blank ∧
     Board.cell? fourLeft (3, 1) = some Slot.Blank ∧
     Board.cell? fourLeft (3, 2) = some Slot.Blank) := by
  refine ⟨?_, ?_, rfl, rfl, rfl, rfl, rfl, rfl, rfl⟩
  · intro b row_num slot rc b' h
    obtain ⟨row, hrow, hrc1, hlt, hblank, hmin, hb'⟩ := Board.insert_from_left_ok h
    refine ⟨hrc1, ?_, ?_⟩
    · unfold Board.cell?
      rw [hrc1, hrow]
      simpa using hblank
    · intro k hk
      show (b.rows.get? row_num).bind (fun r => r.slots.get? k) ≠ some Slot.Blank
      rw [hrow]
      simpa using hmin k hk
  · intro b row_num slot rc b' h
    obtain ⟨row, hrow, hrc1, hlt, hblank, hmin, hb'⟩ := Board.insert_from_right_ok h
    refine ⟨hrc1, ?_, ?_⟩
    · unfold Board.cell?
      rw [hrc1, hrow]
      simpa using hblank
    · intro k hk
      show (b.rows.get? row_num).bind (fun r => r.slots.get? k) ≠ some Slot.Blank
      rw [hrow]
      simpa using hmin k hk

/-- Witness for C2 amended at a concrete input. -/
theorem insert_scans_from_far_edge_witness :
    ((3, 6) : Nat × Nat).1 = 3 ∧
    Board.cell? (Board.new 7 7) (3, 6) = some Slot.Blank ∧
    ∀ k, 6 < k → Board.cell? (Board.new 7 7) (3, k) ≠ some Slot.Blank :=
  insert_scans_from_far_edge.1 (Board.new 7 7) 3 Slot.X (3, 6) bAfterLeft rfl

/-- C3.  The claim states that a third registration is answered with
`GameFull` delivered to the rejected connection, without mutating shared
state.  The `GameFull` branch of `Peer::new` calls
`back_to_sender(addr, GameFull)`, which unwraps `players.get_mut(&addr)` —
but the rejected address was never inserted into the peer map, so the
`unwrap` PANICS: no `GameFull` is ever delivered (the state stays unmutated
only because the handler dies before touching it). -/
theorem register_third_peer_panics (st : Shared) (addr : Addr)
    (hlen : st.players.length = 2)
    (hfresh : ∀ p ∈ st.players, p.1 ≠ addr) :
    Peer.new st addr = RegisterResult.panicked := by
  have hb : st.back_to_sender addr ChannelMsg.gameFull = none := by
    unfold Shared.back_to_sender
    rw [if_neg]
    simp only [List.any_eq_true, beq_iff_eq, not_exists, not_and]
    intro p hp
    exact fun hpe => hfresh p hp hpe
  simp [Peer.new, hlen, hb]

/-- Witness for C3: the concrete two-peer state rejects address 2 with a
panic. -/
theorem register_third_peer_panics_witness :
    Peer.new sharedTwo 2 = RegisterResult.panicked :=
  register_third_peer_panics sharedTwo 2 (by decide) (by decide)

/-- C4.  The claim states that each accepted turn is appended to the shared
history exactly once (so that history length stays in step with the number
of occupied cells).  In fact, after `submitStep` has already pushed the
accepted turn and relayed the raw line to the other peer's channel, the
relay branch of that peer's `process` loop pushes the SAME turn a second
time: one accepted move yields a history of length 2. -/
theorem relay_branch_appends_second_copy :
    ∃ st1 st2, submitStep sharedTwo 0 turnLeft3 = some st1 ∧
      st1.turns = [turnLeft3] ∧
      st1.players = [(0, [ChannelMsg.acknowledged]),
        (1, [ChannelMsg.rawTurn turnLeft3])] ∧
      relayStep st1 (ChannelMsg.rawTurn turnLeft3) = some st2 ∧
      st2.turns = [turnLeft3, turnLeft3] :=
  ⟨_, _, rfl, rfl, rfl, rfl, rfl⟩

/-- C5.  A submission whose source is not `current_player` is answered
`NotYourTurn` into the submitter's own channel only: the turn history,
`current_player`, the dimensions, the set of registered addresses, and every
other peer's channel are exactly as before. -/
theorem submit_wrong_turn_rejected_without_mutation
    (st : Shared) (addr : Addr) (turn : Turn)
    (hsrc : turn.source ≠ st.current_player)
    (hreg : st.players.any (fun p => p.1 == addr) = true) :
    ∃ st', submitStep st addr turn = some st' ∧
      st'.turns = st.turns ∧
      st'.current_player = st.current_player ∧
      st'.height = st.height ∧
      st'.width = st.width ∧
      st'.players.map Prod.fst = st.players.map Prod.fst ∧
      (∀ a q, (a, q) ∈ st.players → a ≠ addr → (a, q) ∈ st'.players) ∧
      (∀ q, (addr, q) ∈ st.players →
        (addr, q ++ [ChannelMsg.notYourTurn]) ∈ st'.players) := by
  unfold submitStep
  rw [if_neg hsrc]
  unfold Shared.back_to_sender
  rw [if_pos hreg]
  refine ⟨_, rfl, rfl, rfl, rfl, rfl, ?_, ?_, ?_⟩
  · show (st.players.map
      (fun p => if p.1 = addr then (p.1, p.2 ++ [ChannelMsg.notYourTurn]) else p)).map
        Prod.fst = st.players.map Prod.fst
    rw [List.map_map]
    apply List.map_congr_left
    intro p _
    by_cases hp : p.1 = addr <;> simp [hp]
  · intro a q hmem hne
    exact List.mem_map.mpr ⟨(a, q), hmem, by simp [hne]⟩
  · intro q hmem
    exact List.mem_map.mpr ⟨(addr, q), hmem, by simp⟩

/-- Witness for C5 at a concrete input: out-of-turn submission by `Second`
into the fresh two-peer state. -/
theorem submit_wrong_turn_witness :
    ∃ st', submitStep sharedTwo 0 turnWrong = some st' ∧
      st'.turns = sharedTwo.turns ∧
      st'.current_player = sharedTwo.current_player ∧
      st'.height = sharedTwo.height ∧
      st'.width = sharedTwo.width ∧
      st'.players.map Prod.fst = sharedTwo.players.map Prod.fst ∧
      (∀ a q, (a, q) ∈ sharedTwo.players → a ≠ 0 → (a, q) ∈ st'.players) ∧
      (∀ q, ((0 : Addr), q) ∈ sharedTwo.players →
        ((0 : Addr), q ++ [ChannelMsg.notYourTurn]) ∈ st'.players) :=
  submit_wrong_turn_rejected_without_mutation sharedTwo 0 turnWrong
    (by decide) (by decide)

/-- C6.  The claim states that `is_full` is true iff the row has no Blank
slot.  The client implementation (`Row::is_full` in
`src/client/src/game/mod.rs`, `all (≠ Blank)`) satisfies this, but the
prototype implementation (`src/src/board.rs`, `any (≠ Blank)`) returns TRUE
for the row `[X, Blank]`, which holds one occupied and one blank cell — so
under the prototype an insert into such a row fails `FullRow`, while the
client version keeps accepting (`insert_from_right` on `[X, Blank]`
succeeds at column 1). -/
theorem is_full_iff_no_blank_and_prototype_diverges :
    (∀ r : Row, r.is_full = true ↔ ∀ s ∈ r.slots, s ≠ Slot.Blank) ∧
    RowProto.is_full (Row.mk [Slot.X, Slot.Blank]) = true ∧
    Row.is_full (Row.mk [Slot.X, Slot.Blank]) = false ∧
    ((Board.mk [Row.mk [Slot.X, Slot.Blank]] 1 2).insert_from_right 0 Slot.O).1
      = Except.ok (0, 1) := by
  refine ⟨?_, by decide, by decide, rfl⟩
  intro r
  simp [Row.is_full]

/-- C7 counterexample.  The claim states that on the second registration the
`GameStart` signal is delivered to BOTH peers, including the one that just
registered.  Registering address 0 and then address 1 into the fresh state
leaves address 1's channel EMPTY: the broadcast excludes the sender, so the
just-registered peer never receives `GameStart`. -/
theorem gamestart_not_delivered_to_second_peer :
    ∃ st1 st2, processRegister shared0 0 = some st1 ∧
      processRegister st1 1 = some st2 ∧
      st1.players = [(0, [])] ∧
      st2.players = [(0, [ChannelMsg.gameStart]), (1, [])] :=
  ⟨_, _, rfl, rfl, rfl, rfl⟩

/-- C7 amended.  `process` broadcasts `GameStart` after every successful
registration to every peer EXCEPT the registrant: on the first registration
nobody receives it (no `GameStart` is delivered while only one peer is
registered), and on the second registration exactly the previously
registered peer receives it — the just-registered peer does not. -/
theorem gamestart_broadcast_excludes_registrant (st : Shared) (addr : Addr) :
    (st.players = [] →
      ∃ st', processRegister st addr = some st' ∧ st'.players = [(addr, [])]) ∧
    (∀ a q, st.players = [(a, q)] → a ≠ addr →
      ∃ st', processRegister st addr = some st' ∧
        st'.players = [(a, q ++ [ChannelMsg.gameStart]), (addr, [])]) := by
  constructor
  · intro hp
    refine ⟨Shared.broadcast { st with players := st.players ++ [(addr, [])] }
      addr ChannelMsg.gameStart, ?_, ?_⟩
    · simp [processRegister, Peer.new, hp]
    · simp [Shared.broadcast, hp]
  · intro a q hp hne
    refine ⟨Shared.broadcast { st with players := st.players ++ [(addr, [])] }
      addr ChannelMsg.gameStart, ?_, ?_⟩
    · simp [processRegister, Peer.new, hp]
    · simp [Shared.broadcast, hp, hne]

/-- Witness for C7 amended at concrete inputs: the empty state and the
one-peer state. -/
theorem gamestart_broadcast_excludes_registrant_witness :
    (∃ st', processRegister shared0 5 = some st' ∧ st'.players = [(5, [])]) ∧
    (∃ st', processRegister sharedOne 1 = some st' ∧
      st'.players = [(0, [ChannelMsg.gameStart]), (1, [])]) :=
  ⟨(gamestart_broadcast_excludes_registrant shared0 5).1 rfl,
   (gamestart_broadcast_excludes_registrant sharedOne 1).2 0 [] rfl (by decide)⟩

/-- C8.  For every successful insert (either side), the returned coordinate
held `Blank` immediately before the call and holds the inserted slot
immediately after: insert never overwrites an occupied cell. -/
theorem insert_success_targets_blank (b : Board) (row_num : Nat) (slot : Slot) :
    (∀ rc b', b.insert_from_left row_num slot = (Except.ok rc, b') →
      Board.cell? b rc = some Slot.Blank ∧ Board.cell? b' rc = some slot) ∧
    (∀ rc b', b.insert_from_right row_num slot = (Except.ok rc, b') →
      Board.cell? b rc = some Slot.Blank ∧ Board.cell? b' rc = some slot) := by
  constructor
  · intro rc b' h
    obtain ⟨row, hrow, hrc1, hlt, hblank, _hmin, hb'⟩ := Board.insert_from_left_ok h
    exact Board.cell_of_ok row hrow hrc1 hlt hblank hb'
  · intro rc b' h
    obtain ⟨row, hrow, hrc1, hlt, hblank, _hmin, hb'⟩ := Board.insert_from_right_ok h
    exact Board.cell_of_ok row hrow hrc1 hlt hblank hb'

/-- Witness for C8 at concrete inputs: one left and one right insertion on
a fresh 7×7 board. -/
theorem insert_success_targets_blank_witness :
    (Board.cell? (Board.new 7 7) (3, 6) = some Slot.Blank ∧
     Board.cell? bAfterLeft (3, 6) = some Slot.X) ∧
    (Board.cell? (Board.new 7 7) (3, 0) = some Slot.Blank ∧
     Board.cell? bAfterRight (3, 0) = some Slot.X) :=
  ⟨(insert_success_targets_blank (Board.new 7 7) 3 Slot.X).1 (3, 6) bAfterLeft rfl,
   (insert_success_targets_blank (Board.new 7 7) 3 Slot.X).2 (3, 0) bAfterRight rfl⟩

/-- C9 counterexample.  The claim states the directional walk stops after
at most 3 steps beyond the origin, so a one-direction count started at 1
could never exceed 4.  On a 7×7 board whose row 3 is all `X`, the East walk
from (3,0) visits all six cells beyond the origin and returns 7. -/
theorem recurse_walks_entire_run :
    Board.recurse bFullRow Slot.X 3 0 1 Direction.East = 7 ∧
    4 < Board.recurse bFullRow Slot.X 3 0 1 Direction.East := by
  have h : Board.recurse bFullRow Slot.X 3 0 1 Direction.East = 7 := by
    simp [Board.recurse, Board.try_get_row, Row.get, bFullRow, blankRow7]
    decide
  exact ⟨h, by rw [h]; omega⟩

/-- C9 amended.  The walk has no 3-step cap: it stops only at the board
edge or at the first non-matching slot.  Its count — hence the number of
cells it inspects and its recursion depth — is bounded by the board
dimensions (`rows.length` and `width`), not by a constant independent of
board size. -/
theorem recurse_cost_bounded_by_board_dims (b : Board) (slot : Slot)
    (row_num col len_so_far : Nat) (d : Direction) :
    b.recurse slot row_num col len_so_far d ≤
      len_so_far + row_num + col + b.rows.length + b.width := by
  have h := Board.recurse_le b slot row_num col len_so_far d
  have h2 : b.dirMeasure row_num col d ≤ row_num + col + b.rows.length + b.width := by
    cases d <;> simp [Board.dirMeasure] <;> omega
  omega

/-- C10.  A successful insert (either side) modifies exactly the cell at
the returned coordinate — every other cell, the `height` and `width`
fields, and the number of rows are unchanged — and a failed insert
(`NonexistentRow` or `FullRow`) leaves the board exactly as it was. -/
theorem insert_frame_effect (b : Board) (row_num : Nat) (slot : Slot) :
    (∀ rc b', b.insert_from_left row_num slot = (Except.ok rc, b') →
      b'.height = b.height ∧ b'.width = b.width ∧
      b'.rows.length = b.rows.length ∧
      Board.cell? b' rc = some slot ∧
      ∀ i j, ¬(i = rc.1 ∧ j = rc.2) →
        Board.cell? b' (i, j) = Board.cell? b (i, j)) ∧
    (∀ rc b', b.insert_from_right row_num slot = (Except.ok rc, b') →
      b'.height = b.height ∧ b'.width = b.width ∧
      b'.rows.length = b.rows.length ∧
      Board.cell? b' rc = some slot ∧
      ∀ i j, ¬(i = rc.1 ∧ j = rc.2) →
        Board.cell? b' (i, j) = Board.cell? b (i, j)) ∧
    (∀ e b', b.insert_from_left row_num slot = (Except.error e, b') → b' = b) ∧
    (∀ e b', b.insert_from_right row_num slot = (Except.error e, b') → b' = b) := by
  refine ⟨?_, ?_, fun e b' h => Board.insert_from_left_error h,
    fun e b' h => Board.insert_from_right_error h⟩
  · intro rc b' h
    obtain ⟨row, hrow, hrc1, hlt, hblank, _hmin, hb'⟩ := Board.insert_from_left_ok h
    refine ⟨by rw [hb']; rfl, by rw [hb']; rfl, by rw [hb']; simp [Board.setRow], ?_, ?_⟩
    · exact (Board.cell_of_ok row hrow hrc1 hlt hblank hb').2
    · exact Board.cell_frame row hrow hrc1 hb'
  · intro rc b' h
    obtain ⟨row, hrow, hrc1, hlt, hblank, _hmin, hb'⟩ := Board.insert_from_right_ok h
    refine ⟨by rw [hb']; rfl, by rw [hb']; rfl, by rw [hb']; simp [Board.setRow], ?_, ?_⟩
    · exact (Board.cell_of_ok row hrow hrc1 hlt hblank hb').2
    · exact Board.cell_frame row hrow hrc1 hb'

/-- Witness for C10 at concrete inputs: a successful left insertion on a
fresh 7×7 board and a failing insertion into an out-of-range row. -/
theorem insert_frame_effect_witness :
    (bAfterLeft.height = (Board.new 7 7).height ∧
     bAfterLeft.width = (Board.new 7 7).width ∧
     bAfterLeft.rows.length = (Board.new 7 7).rows.length ∧
     Board.cell? bAfterLeft (3, 6) = some Slot.X ∧
     ∀ i j, ¬(i = ((3, 6) : Nat × Nat).1 ∧ j = ((3, 6) : Nat × Nat).2) →
       Board.cell? bAfterLeft (i, j) = Board.cell? (Board.new 7 7) (i, j)) ∧
    ((Board.new 7 7).insert_from_left 9 Slot.X).2 = Board.new 7 7 :=
  ⟨(insert_frame_effect (Board.new 7 7) 3 Slot.X).1 (3, 6) bAfterLeft rfl,
   (insert_frame_effect (Board.new 7 7) 9 Slot.X).2.2.1 GameError.NonexistentRow
     ((Board.new 7 7).insert_from_left 9 Slot.X).2 rfl⟩
